import Mathlib

/-!
Verification of the tiered cache engine of `go-cache-plugin`.

The development shallowly embeds the pure logic of the repository:

* `revproxy/revproxy.go`: target matching (`hostMatchesTarget`), cache-control
  parsing (`splitCacheControl`, `canCacheRequest`, `canCacheResponse`,
  `canMemoryCache`), and the response-forwarding cache decision of
  `Server.ServeHTTP`.
* `revproxy/cache.go`: the cache object file format (`writeCacheObject`,
  `parseCacheObject`, `hprintf`) and the memory cache entry construction
  (`cacheStoreMemory`, `trimCacheHeader`).
* `s3cache/s3cache.go`: the build cache protocol (`Cache.Get`, `Cache.Put`,
  `maybePutObject`, the background upload task, `parseAction`).

Go strings are embedded as `List Char` (`Str`); the byte strings involved are
ASCII so this is faithful.  Effectful calls (local stage, S3) are embedded as
oracle fields of explicit environment structures, and the remote store as a
pair of key-indexed partial maps together with an operation trace.
-/

abbrev Str := List Char

/-! ## Go string primitives used by the sources -/

/-- Characters that Go `unicode.IsSpace` reports as white space in the
Latin-1 range (`\t`, `\n`, `\v`, `\f`, `\r`, space, NEL, NBSP). -/
def goIsSpace (c : Char) : Bool :=
  c == '\t' || c == '\n' || c == Char.ofNat 11 || c == Char.ofNat 12 ||
  c == '\r' || c == ' ' || c == Char.ofNat 0x85 || c == Char.ofNat 0xA0

/-- Accumulator loop of `strings.Fields`: splits the input around maximal
runs of white space. -/
def goFieldsAux : List Char → List Char → List Str
  | [], acc => if acc.isEmpty then [] else [acc.reverse]
  | c :: cs, acc =>
    if goIsSpace c then
      if acc.isEmpty then goFieldsAux cs [] else acc.reverse :: goFieldsAux cs []
    else goFieldsAux cs (c :: acc)

/-- `strings.Fields`. -/
def goFields (s : Str) : List Str := goFieldsAux s []

/-- Value of an ASCII decimal digit. -/
def digVal (c : Char) : Option Nat :=
  if '0' ≤ c ∧ c ≤ '9' then some (c.toNat - 48) else none

/-- Digit-accumulation loop of `strconv.ParseInt` for base 10. -/
def parseDigitsAux : List Char → Nat → Option Nat
  | [], acc => some acc
  | c :: cs, acc =>
    match digVal c with
    | some d => parseDigitsAux cs (acc * 10 + d)
    | none => none

/-- A non-empty run of decimal digits, as a natural number. -/
def parseDigits : List Char → Option Nat
  | [] => none
  | s => parseDigitsAux s 0

/-- `strconv.ParseInt(s, 10, 64)` (also `strconv.Atoi` on a 64-bit platform):
an optional sign, then decimal digits, rejecting values outside the signed
64-bit range. -/
def parseInt64 (s : Str) : Option Int :=
  match s with
  | '+' :: rest =>
    (parseDigits rest).bind fun n =>
      if n ≤ 9223372036854775807 then some (n : Int) else none
  | '-' :: rest =>
    (parseDigits rest).bind fun n =>
      if n ≤ 9223372036854775808 then some (-(n : Int)) else none
  | _ =>
    (parseDigits s).bind fun n =>
      if n ≤ 9223372036854775807 then some (n : Int) else none

/-- `strings.CutPrefix(s, pat)`: the remainder of `s` after a leading
occurrence of `pat`, if `pat` leads `s`. -/
def stripLit : Str → Str → Option Str
  | [], s => some s
  | _ :: _, [] => none
  | p :: ps, c :: cs => if c = p then stripLit ps cs else none

/-- `strings.TrimPrefix(s, ".")`: drops one leading dot when present. -/
def trimLeadDot : Str → Str
  | '.' :: r => r
  | s => s

/-! ## Target matching (`revproxy.go`, `hostMatchesTarget`) -/

/-- The per-target predicate inside `hostMatchesTarget`: an exact match, or a
pattern starting with `*` whose remainder is a literal suffix of the host or,
stripped of a leading dot, equals the host. -/
def matchesTarget (host : Str) (s : Str) : Bool :=
  if s = host then true
  else
    match stripLit ['*'] s with
    | some tail => tail.isSuffixOf host || host == trimLeadDot tail
    | none => false

/-- `hostMatchesTarget(host, targets)` = `slices.ContainsFunc` of the above. -/
def hostMatchesTarget (host : Str) (targets : List Str) : Bool :=
  targets.any fun s => matchesTarget host s

abbrev Header := List (Str × Str)

/-- `http.Header.Get`: first binding for a name, or the empty string. -/
def headerGet (h : Header) (name : Str) : Str :=
  match h.find? (fun p => p.1 == name) with
  | some p => p.2
  | none => []

/-- `http.Header.Add` (no prior binding is removed). -/
def headerAdd (h : Header) (name value : Str) : Header := h ++ [(name, value)]

/-- `strings.TrimSpace`. -/
def trimSpace (s : Str) : Str :=
  ((s.dropWhile goIsSpace).reverse.dropWhile goIsSpace).reverse

/-- `splitCacheControl` : split the `Cache-Control` value on commas and trim
each token.  The argument is the raw header value (empty when absent). -/
def splitCacheControl (rawCC : Str) : List Str :=
  (rawCC.splitOn ',').map trimSpace

/-- `Server.canCacheRequest`: a GET whose request cache-control lacks
`no-store`. -/
def canCacheRequest (method : Str) (reqCC : Str) : Bool :=
  method == "GET".toList && !((splitCacheControl reqCC).contains ("no-store".toList))

/-- `Server.canCacheResponse`: status 200, no `no-store`, and `immutable`
present. -/
def canCacheResponse (status : Nat) (rspCC : Str) : Bool :=
  if status ≠ 200 then false
  else
    let cc := splitCacheControl rspCC
    !(cc.contains ("no-store".toList)) && cc.contains ("immutable".toList)

/-- The literal pattern `max-age=` cut from a cache-control token. -/
def maLit : Str := "max-age=".toList

/-- The `max-age=N` handling for one cache-control token in
`Server.canMemoryCache`: when the token carries a valid decimal `N` this is
the new accumulator `min(N, 3600)` seconds in nanoseconds (`time.Duration`),
otherwise `none` (the accumulator is kept). -/
def maxAgeTok (v : Str) : Option Int :=
  match stripLit maLit v with
  | some sfx =>
    match parseInt64 sfx with
    | some sec => some (min sec 3600 * 1000000000)
    | none => none
  | none => none

/-- The token loop of `Server.canMemoryCache`: `no-store` or `immutable`
return immediately; each valid `max-age=N` token overwrites the
accumulator. -/
def maxAgeLoop : List Str → Int → Int × Bool
  | [], acc => (acc, decide (0 < acc))
  | v :: rest, acc =>
    if v = "no-store".toList ∨ v = "immutable".toList then (0, false)
    else maxAgeLoop rest ((maxAgeTok v).getD acc)

/-- `Server.canMemoryCache`: the volatile TTL (nanoseconds) and whether the
response may be memory-cached. -/
def canMemoryCache (status : Nat) (rspCC : Str) : Int × Bool :=
  if status ≠ 200 then (0, false)
  else maxAgeLoop (splitCacheControl rspCC) 0

/-- Header keep-list of `trimCacheHeader` (`cache.go`). -/
def keepHeader : List Str :=
  ["Cache-Control".toList, "Content-Type".toList, "Date".toList, "Etag".toList]

/-- `trimCacheHeader`: the kept bindings, in keep-list order (the Go map is
unordered; the names are distinct so `Set` behaves as an append here). -/
def trimCacheHeader (h : Header) : Header :=
  keepHeader.foldl (fun out name =>
    let v := headerGet h name
    if v = [] then out else headerAdd out name v) []

/-- An entry of the in-memory LRU (`memCacheEntry`): kept headers, body, and
absolute expiry in nanoseconds. -/
structure MemCacheEntry where
  header : Header
  body : Str
  expires : Int

/-- `Server.cacheStoreMemory` builds the entry stored under the request hash:
its expiry is `time.Now().Add(maxAge)`. -/
def cacheStoreMemory (now maxAge : Int) (hdr : Header) (body : Str) : MemCacheEntry :=
  { header := trimCacheHeader hdr, body := body, expires := now + maxAge }

/-! ## The forwarding decision of `Server.ServeHTTP`

When every cache tier missed (or the request was not cacheable) the request
is forwarded upstream.  `ModifyResponse` is installed only when the request
was cacheable; it decides the `X-Cache` annotation, and `updateCache` runs
after the proxy round trip and performs the stores.  `ForwardOutcome`
records the annotation (`none`: header untouched) and which tiers stored
the response; a failed local write suppresses the S3 write-behind. -/

structure ForwardOutcome where
  xcache : Option Str
  storedMemory : Bool
  storedLocal : Bool
  storedS3 : Bool
deriving DecidableEq

/-- Response handling of `Server.ServeHTTP` after the forward, as a function
of the request cacheability, upstream status, raw response `Cache-Control`,
and whether the local-stage write would succeed. -/
def forwardResponse (canCache : Bool) (status : Nat) (rspCC : Str)
    (localSaveOk : Bool) : ForwardOutcome :=
  if !canCache then ⟨none, false, false, false⟩
  else
    let ma := canMemoryCache status rspCC
    if !ma.2 && !(canCacheResponse status rspCC) then
      ⟨some ("fetch, uncached".toList), false, false, false⟩
    else if ma.2 then
      ⟨some ("fetch, cached, volatile".toList), true, false, false⟩
    else if localSaveOk then
      ⟨some ("fetch, cached".toList), false, true, true⟩
    else
      ⟨some ("fetch, cached".toList), false, false, false⟩

/-- Result of an S3 `GetObject`: payload, not-found (`s3util.IsNotExist`),
or any other error. -/
inductive S3Resp (α : Type) where
  | ok (v : α)
  | notFound
  | failure (msg : Str)
deriving DecidableEq

/-- `parseAction`: the record must have exactly two whitespace-separated
fields and the second must be a decimal `int64` (Unix nanoseconds, which
determine the modification time `time.Unix(ts/1e9, ts%1e9)`). -/
def parseAction (data : Str) : Except Str (Str × Int) :=
  match goFields data with
  | [oid, ts] =>
    match parseInt64 ts with
    | some n => Except.ok (oid, n)
    | none => Except.error ("invalid timestamp".toList)
  | _ => Except.error ("invalid action record".toList)

/-- Oracles for one `Cache.Get(actionID)` call: the local stage lookup
result, the remote fetch of this action's record, the remote object fetch
keyed by object id (body and content length), and the local write-back
outcome. -/
structure GetEnv where
  localObjID : Str
  localDiskPath : Str
  localErr : Option Str
  actionResp : S3Resp Str
  objectResp : Str → S3Resp (Str × Int)
  localPutPath : Str
  localPutErr : Option Str

/-- The local-stage hit test of `Cache.Get`:
`err == nil && objID != "" && diskPath != ""`. -/
def localHit (env : GetEnv) : Prop :=
  env.localErr = none ∧ env.localObjID ≠ [] ∧ env.localDiskPath ≠ []

instance (env : GetEnv) : Decidable (localHit env) := by
  unfold localHit
  infer_instance

/-- Value of one `Cache.Get` call: the returned `(objectID, diskPath, err)`
triple, plus whether a faulted-in object was written to the local stage. -/
structure GetResult where
  objectID : Str
  diskPath : Str
  err : Option Str
  wroteLocal : Bool
deriving DecidableEq

/-- `Cache.Get`: local stage first; then the remote action record (not-found
is a miss, other errors fatal); then parse; then the remote object (any
error fatal); finally the write-back into the local stage, whose path and
error are returned with the object id. -/
def cacheGet (env : GetEnv) : GetResult :=
  if localHit env then ⟨env.localObjID, env.localDiskPath, none, false⟩
  else
    match env.actionResp with
    | S3Resp.notFound => ⟨[], [], none, false⟩
    | S3Resp.failure e => ⟨[], [], some ("read action: ".toList ++ e), false⟩
    | S3Resp.ok body =>
      match parseAction body with
      | Except.error e => ⟨[], [], some e, false⟩
      | Except.ok (oid, _ts) =>
        match env.objectResp oid with
        | S3Resp.notFound => ⟨[], [], some ("read object: ".toList ++ oid), false⟩
        | S3Resp.failure e => ⟨[], [], some ("read object: ".toList ++ e), false⟩
        | S3Resp.ok _ => ⟨oid, env.localPutPath, env.localPutErr, true⟩

/-- A write-behind task as enqueued by `Cache.Put`: the two ids and the etag
computed over the body by the digest reader. -/
structure UploadTask where
  actionID : Str
  objectID : Str
  etag : Str
deriving DecidableEq

/-- The remote bucket restricted to the two key spaces of this cache. -/
structure Remote where
  objects : Str → Option Str
  actions : Str → Option Str

/-- One S3 call attempted by the background task. -/
inductive RemoteOp where
  | headObject (objectID etag : Str) (matched : Bool)
  | putObject (objectID : Str) (data : Str)
  | putAction (actionID : Str) (record : Str)
deriving DecidableEq

def RemoteOp.isPutAction : RemoteOp → Bool
  | RemoteOp.putAction _ _ => true
  | _ => false

def RemoteOp.isPutObject : RemoteOp → Bool
  | RemoteOp.putObject _ _ => true
  | _ => false

/-- Oracles for one run of the background task: the bytes of the staged file
at `diskPath` (`none` when open or stat fails), its modification time, and
the outcomes S3 would give the two unconditional `PutObject` calls. -/
structure TaskEnv where
  fileData : Option Str
  mtimeNanos : Int
  putObjectErr : Option Str
  putActionErr : Option Str

/-- `HeadObject` with `IfMatch: etag` succeeds iff the key holds bytes whose
S3 etag (content MD5, abstracted as `etagFn`) equals the guard. -/
def etagMatches (etagFn : Str → Str) (r : Remote) (oid etag : Str) : Bool :=
  match r.objects oid with
  | some data => etagFn data == etag
  | none => false

/-- State, trace and error of a (partial) task run. -/
structure TaskResult where
  remote : Remote
  ops : List RemoteOp
  err : Option Str

/-- Point update of a key map. -/
def updMap (f : Str → Option Str) (k v : Str) : Str → Option Str :=
  fun q => if q = k then some v else f q

/-- `Cache.maybePutObject`: open and stat the staged file, `HeadObject` the
object key with the etag as `If-Match` (a match counts as already present
and skips the upload), otherwise `PutObject` the file bytes. -/
def maybePutObject (etagFn : Str → Str) (env : TaskEnv) (r : Remote)
    (oid etag : Str) : TaskResult :=
  match env.fileData with
  | none => ⟨r, [], some ("open local object".toList)⟩
  | some data =>
    if etagMatches etagFn r oid etag then
      ⟨r, [RemoteOp.headObject oid etag true], none⟩
    else
      match env.putObjectErr with
      | some e =>
        ⟨r, [RemoteOp.headObject oid etag false, RemoteOp.putObject oid data], some e⟩
      | none =>
        ⟨{ r with objects := updMap r.objects oid data },
          [RemoteOp.headObject oid etag false, RemoteOp.putObject oid data], none⟩

/-- Decimal rendering of fmt's `%d`. -/
def intToStr (i : Int) : Str :=
  if i < 0 then '-' :: Nat.toDigits 10 i.natAbs else Nat.toDigits 10 i.toNat

/-- The action record `"<output-id> <unix-nanos>"` written by stage 2. -/
def actionRecord (oid : Str) (mtime : Int) : Str :=
  oid ++ ' ' :: intToStr mtime

/-- The background task body enqueued by `Cache.Put`: stage 1
`maybePutObject` (aborting the task on error), then stage 2 writes the
action record unconditionally under the action key. -/
def runTask (etagFn : Str → Str) (env : TaskEnv) (r : Remote) (t : UploadTask) :
    TaskResult :=
  let st1 := maybePutObject etagFn env r t.objectID t.etag
  match st1.err with
  | some e => ⟨st1.remote, st1.ops, some e⟩
  | none =>
    match env.putActionErr with
    | some e =>
      ⟨st1.remote,
        st1.ops ++ [RemoteOp.putAction t.actionID (actionRecord t.objectID env.mtimeNanos)],
        some e⟩
    | none =>
      ⟨{ st1.remote with
          actions := updMap st1.remote.actions t.actionID
            (actionRecord t.objectID env.mtimeNanos) },
        st1.ops ++ [RemoteOp.putAction t.actionID (actionRecord t.objectID env.mtimeNanos)],
        none⟩

/-- Oracle for the synchronous part of `Cache.Put`: the local stage write. -/
structure PutEnv where
  localPutPath : Str
  localPutErr : Option Str
deriving DecidableEq

/-- Value of one `Cache.Put` call: the returned `(diskPath, err)` pair and
the enqueued background task, if any. -/
structure PutResult where
  diskPath : Str
  err : Option Str
  task : Option UploadTask
deriving DecidableEq

/-- `Cache.Put`: local stage write first (a failure returns that error
without touching the remote); objects with `size < minUploadSize` return the
local path without enqueuing; otherwise a task carrying the digest etag is
enqueued. -/
def cachePut (etagFn : Str → Str) (minUploadSize : Int) (env : PutEnv)
    (actionID oid : Str) (size : Int) (body : Str) : PutResult :=
  match env.localPutErr with
  | some e => ⟨[], some e, none⟩
  | none =>
    if size < minUploadSize then ⟨env.localPutPath, none, none⟩
    else ⟨env.localPutPath, none, some ⟨actionID, oid, etagFn body⟩⟩

/-- Effect on the remote store of whatever `Cache.Put` enqueued. -/
def runEnqueued (etagFn : Str → Str) (tenv : TaskEnv) (r : Remote) :
    Option UploadTask → Remote
  | none => r
  | some t => (runTask etagFn tenv r t).remote

def ctName : Str := "Content-Type".toList

def dateName : Str := "Date".toList

def etagName : Str := "Etag".toList

def defaultCT : Str := "application/octet-stream".toList

/-- `hprintf`: `Name: value\n` for a present header, else the fallback when
non-empty, else nothing. -/
def hprintf (h : Header) (name fallback : Str) : Str :=
  let v := headerGet h name
  if v ≠ [] then name ++ ':' :: ' ' :: (v ++ ['\n'])
  else if fallback ≠ [] then name ++ ':' :: ' ' :: (fallback ++ ['\n'])
  else []

/-- `writeCacheObject`. -/
def writeCacheObject (h : Header) (body : Str) : Str :=
  hprintf h ctName defaultCT ++ hprintf h dateName [] ++ hprintf h etagName [] ++
    '\n' :: body

/-- `bytes.Cut` / `strings.Cut` with a two-character separator: split around
the first occurrence of `c1 c2`. -/
def cutSep2 (c1 c2 : Char) : Str → Option (Str × Str)
  | x :: y :: rest =>
    if x = c1 ∧ y = c2 then some ([], rest)
    else (cutSep2 c1 c2 (y :: rest)).map fun p => (x :: p.1, p.2)
  | _ => none

/-- One line of the header section during parsing: a cut at `": "` adds the
binding, any other line is ignored. -/
def addLine (h : Header) (line : Str) : Header :=
  match cutSep2 ':' ' ' line with
  | some (name, value) => headerAdd h name value
  | none => h

/-- `parseCacheObject`: a missing blank line is an error (`none`). -/
def parseCacheObject (data : Str) : Option (Str × Header) :=
  match cutSep2 '\n' '\n' data with
  | none => none
  | some (hdr, rest) => some (rest, (hdr.splitOn '\n').foldl addLine [])

/-- A written header line `Name: value` (without the newline). -/
def headerLine (name v : Str) : Str := name ++ ':' :: ' ' :: v

/-- The bindings `writeCacheObject` actually persists: `Content-Type`
always (with the octet-stream default), then `Date` and `Etag` when present.
This is the amended keep-list: `Cache-Control` is not persisted. -/
def writtenHeaders (h : Header) : Header :=
  (ctName, if headerGet h ctName = [] then defaultCT else headerGet h ctName) ::
  ((if headerGet h dateName = [] then [] else [(dateName, headerGet h dateName)]) ++
   (if headerGet h etagName = [] then [] else [(etagName, headerGet h etagName)]))

/-- The header lines of a written cache object, in order. -/
def linesOf (h : Header) : List Str :=
  (writtenHeaders h).map fun p => headerLine p.1 p.2

/-- Concatenation of lines, each terminated by a newline. -/
def joinNL : List Str → Str
  | [] => []
  | l :: ls => l ++ '\n' :: joinNL ls

/-! ## Theorems -/

theorem stripLit_star_none {t : Str} (h : t.head? ≠ some '*') :
    stripLit ['*'] t = none := by
  cases t with
  | nil => rfl
  | cons c ts =>
    have hc : c ≠ '*' := fun he => h (by simp [he])
    simp [stripLit, hc]

theorem stripLit_star_cons (tail : Str) : stripLit ['*'] ('*' :: tail) = some tail := by
  simp [stripLit]

/-- C8: target matching is a pure function of host and target: a target
without a leading `*` matches exactly the equal host; a wildcard `*.dom`
matches `dom` itself and every host with literal suffix `.dom`; every other
host fails to match. -/
theorem target_matching_pure (host t : Str) :
    (t.head? ≠ some '*' → (hostMatchesTarget host [t] = true ↔ host = t)) ∧
    (∀ dom, t = '*' :: '.' :: dom →
      (hostMatchesTarget host [t] = true ↔ (host = dom ∨ ('.' :: dom) <:+ host))) := by
  constructor
  · intro hnostar
    simp only [hostMatchesTarget, List.any_cons, List.any_nil, Bool.or_false]
    unfold matchesTarget
    rw [stripLit_star_none hnostar]
    by_cases hst : t = host
    · subst hst
      simp
    · simp only [if_neg hst]
      constructor
      · intro h
        simp at h
      · intro h
        exact absurd h.symm hst
  · rintro dom rfl
    simp only [hostMatchesTarget, List.any_cons, List.any_nil, Bool.or_false]
    unfold matchesTarget
    rw [stripLit_star_cons]
    by_cases hst : ('*' :: '.' :: dom) = host
    · subst hst
      have hs : ('.' :: dom) <:+ ('*' :: '.' :: dom) := List.suffix_cons '*' ('.' :: dom)
      simp [hs]
    · rw [if_neg hst]
      simp only [Bool.or_eq_true, List.isSuffixOf_iff_suffix, beq_iff_eq, trimLeadDot]
      exact or_comm

/-- Witness for C8 at concrete inputs: `*.dom` vs host `x.y.dom`, and the
exact target `foo.com` vs host `foo.com`. -/
theorem target_matching_pure_witness :
    (hostMatchesTarget ("x.y.dom".toList) [('*' :: '.' :: "dom".toList)] = true ↔
      ("x.y.dom".toList = "dom".toList ∨ ('.' :: "dom".toList) <:+ "x.y.dom".toList)) ∧
    (hostMatchesTarget ("foo.com".toList) ["foo.com".toList] = true ↔
      "foo.com".toList = "foo.com".toList) :=
  ⟨(target_matching_pure ("x.y.dom".toList) ('*' :: '.' :: "dom".toList)).2 ("dom".toList) rfl,
   (target_matching_pure ("foo.com".toList) ("foo.com".toList)).1 (by decide)⟩

example : hostMatchesTarget ("x.y.dom".toList) [('*' :: '.' :: "dom".toList)] = true := by decide
example : hostMatchesTarget ("dom".toList) [('*' :: '.' :: "dom".toList)] = true := by decide
example : hostMatchesTarget ("adom".toList) [('*' :: '.' :: "dom".toList)] = false := by decide

/-! ## Headers and cache-control tokens (`revproxy.go`, `cache.go`)

`http.Header` is embedded as an association list of (name, value) pairs;
`Get` returns the first binding (Go returns the first value of the map
entry), `Add` appends.  All header names handled by the proxy sources are
already in canonical MIME form, so canonicalization is the identity here. -/

example : canMemoryCache 200 ("max-age=7200".toList) = (3600 * 1000000000, true) := by decide
example : canMemoryCache 200 ("max-age=30, immutable".toList) = (0, false) := by decide
example : canMemoryCache 404 ("max-age=30".toList) = (0, false) := by decide

/-! ### C7: bounded memory TTL -/

theorem maxAgeTok_le {v : Str} {m : Int} (h : maxAgeTok v = some m) :
    m ≤ 3600 * 1000000000 := by
  unfold maxAgeTok at h
  cases hs : stripLit maLit v with
  | none => rw [hs] at h; exact Option.noConfusion h
  | some sfx =>
    rw [hs] at h
    cases hp : parseInt64 sfx with
    | none => simp only [hp] at h; exact Option.noConfusion h
    | some sec =>
      simp only [hp, Option.some.injEq] at h
      rw [← h]
      exact mul_le_mul_of_nonneg_right (min_le_right sec 3600) (by norm_num)

theorem maxAgeTok_none {v : Str} (h : stripLit maLit v = none) :
    maxAgeTok v = none := by
  unfold maxAgeTok
  rw [h]

theorem maxAgeTok_some {v sfx : Str} {n : Int}
    (hv : stripLit maLit v = some sfx) (hn : parseInt64 sfx = some n) :
    maxAgeTok v = some (min n 3600 * 1000000000) := by
  unfold maxAgeTok
  rw [hv]
  simp only [hn]

theorem maxAgeLoop_fst_le (toks : List Str) (acc : Int)
    (hacc : acc ≤ 3600 * 1000000000) :
    (maxAgeLoop toks acc).1 ≤ 3600 * 1000000000 := by
  induction toks generalizing acc with
  | nil => simpa [maxAgeLoop]
  | cons v rest ih =>
    simp only [maxAgeLoop]
    by_cases hv : v = "no-store".toList ∨ v = "immutable".toList
    · rw [if_pos hv]
      norm_num
    · rw [if_neg hv]
      cases ht : maxAgeTok v with
      | none => rw [Option.getD_none]; exact ih acc hacc
      | some m => rw [Option.getD_some]; exact ih m (maxAgeTok_le ht)

theorem maxAgeLoop_skip (post : List Str) (acc : Int)
    (hpost : ∀ w ∈ post, w ≠ "no-store".toList ∧ w ≠ "immutable".toList ∧
      stripLit maLit w = none) :
    maxAgeLoop post acc = (acc, decide (0 < acc)) := by
  induction post with
  | nil => rfl
  | cons v rest ih =>
    obtain ⟨h1, h2, h3⟩ := hpost v (List.mem_cons_self v rest)
    simp only [maxAgeLoop]
    rw [if_neg (by tauto), maxAgeTok_none h3, Option.getD_none]
    apply ih
    intro w hw
    exact hpost w (List.mem_cons_of_mem v hw)

theorem maxAgeLoop_single (pre post : List Str) (v sfx : Str) (n : Int) (acc : Int)
    (hpre : ∀ w ∈ pre, w ≠ "no-store".toList ∧ w ≠ "immutable".toList ∧
      stripLit maLit w = none)
    (hv1 : v ≠ "no-store".toList) (hv2 : v ≠ "immutable".toList)
    (hv3 : stripLit maLit v = some sfx)
    (hn : parseInt64 sfx = some n)
    (hpost : ∀ w ∈ post, w ≠ "no-store".toList ∧ w ≠ "immutable".toList ∧
      stripLit maLit w = none) :
    maxAgeLoop (pre ++ v :: post) acc =
      (min n 3600 * 1000000000, decide (0 < min n 3600 * 1000000000)) := by
  induction pre generalizing acc with
  | nil =>
    rw [List.nil_append]
    simp only [maxAgeLoop]
    rw [if_neg (by tauto), maxAgeTok_some hv3 hn, Option.getD_some]
    exact maxAgeLoop_skip post _ hpost
  | cons w pre ih =>
    obtain ⟨h1, h2, h3⟩ := hpre w (List.mem_cons_self w pre)
    rw [List.cons_append]
    simp only [maxAgeLoop]
    rw [if_neg (by tauto), maxAgeTok_none h3, Option.getD_none]
    apply ih
    intro u hu
    exact hpre u (List.mem_cons_of_mem w hu)

/-- C7: every memory-cache TTL computed by `canMemoryCache` is at most
3600 s (in nanoseconds), and for a 200 response whose cache-control has one
valid `max-age=N` token and neither `no-store` nor `immutable`, the entry
stored by `cacheStoreMemory` expires exactly `min(N, 3600)` seconds after
`now`. -/
theorem memory_ttl_bounded :
    (∀ status rspCC, (canMemoryCache status rspCC).1 ≤ 3600 * 1000000000) ∧
    (∀ rspCC pre v sfx n post (now : Int) (hdr : Header) (body : Str),
      splitCacheControl rspCC = pre ++ v :: post →
      (∀ w ∈ pre ++ v :: post, w ≠ "no-store".toList ∧ w ≠ "immutable".toList) →
      (∀ w ∈ pre, stripLit maLit w = none) →
      stripLit maLit v = some sfx →
      parseInt64 sfx = some n →
      (∀ w ∈ post, stripLit maLit w = none) →
      canMemoryCache 200 rspCC =
        (min n 3600 * 1000000000, decide (0 < min n 3600 * 1000000000)) ∧
      (cacheStoreMemory now ((canMemoryCache 200 rspCC).1) hdr body).expires - now =
        min n 3600 * 1000000000) := by
  constructor
  · intro status rspCC
    unfold canMemoryCache
    by_cases hst : status ≠ 200
    · simp [hst]
    · rw [if_neg hst]
      exact maxAgeLoop_fst_le _ 0 (by norm_num)
  · intro rspCC pre v sfx n post now hdr body hsplit hks hpre hv hn hpost
    have hcc : canMemoryCache 200 rspCC =
        (min n 3600 * 1000000000, decide (0 < min n 3600 * 1000000000)) := by
      unfold canMemoryCache
      rw [if_neg (by norm_num), hsplit]
      exact maxAgeLoop_single pre post v sfx n 0
        (fun w hw => ⟨(hks w (List.mem_append_left _ hw)).1,
          (hks w (List.mem_append_left _ hw)).2, hpre w hw⟩)
        (hks v (List.mem_append_right _ (List.mem_cons_self v post))).1
        (hks v (List.mem_append_right _ (List.mem_cons_self v post))).2
        hv hn
        (fun w hw => ⟨(hks w (List.mem_append_right _ (List.mem_cons_of_mem v hw))).1,
          (hks w (List.mem_append_right _ (List.mem_cons_of_mem v hw))).2, hpost w hw⟩)
    refine ⟨hcc, ?_⟩
    rw [hcc]
    simp [cacheStoreMemory]

/-- Witness for C7: `Cache-Control: max-age=30` on a 200 response yields a
30-second TTL. -/
theorem memory_ttl_bounded_witness :
    canMemoryCache 200 ("max-age=30".toList) =
      (min 30 3600 * 1000000000, decide (0 < min 30 3600 * 1000000000)) ∧
    (cacheStoreMemory 77 ((canMemoryCache 200 ("max-age=30".toList)).1) [] []).expires - 77 =
      min 30 3600 * 1000000000 :=
  memory_ttl_bounded.2 ("max-age=30".toList) [] ("max-age=30".toList) ("30".toList) 30 [] 77 [] []
    (by decide) (by decide) (by decide) (by decide) (by decide) (by decide)

/-! ### C9: non-200 responses are never cached -/

/-- Counterexample for C9 as stated: a cache-ineligible request (POST) that
is forwarded and answered with status 500 gets no `X-Cache` annotation at
all, because `ModifyResponse` is installed only for cacheable requests. -/
theorem non200_ineligible_no_header :
    canCacheRequest ("POST".toList) [] = false ∧
    (forwardResponse (canCacheRequest ("POST".toList) []) 500 [] true).xcache = none := by
  decide

/-- C9 (amended): a forwarded response with status ≠ 200 is stored in no
cache tier; the `X-Cache: fetch, uncached` annotation is applied exactly
when the request itself was cacheable (a cache miss), while forwards of
cache-ineligible requests leave the header unset. -/
theorem non200_never_cached (canCache : Bool) (status : Nat) (rspCC : Str)
    (localSaveOk : Bool) (hst : status ≠ 200) :
    (forwardResponse canCache status rspCC localSaveOk).storedMemory = false ∧
    (forwardResponse canCache status rspCC localSaveOk).storedLocal = false ∧
    (forwardResponse canCache status rspCC localSaveOk).storedS3 = false ∧
    (forwardResponse canCache status rspCC localSaveOk).xcache =
      (if canCache then some ("fetch, uncached".toList) else none) := by
  have hmem : canMemoryCache status rspCC = (0, false) := by
    unfold canMemoryCache
    rw [if_pos hst]
  have hrsp : canCacheResponse status rspCC = false := by
    unfold canCacheResponse
    rw [if_pos hst]
  cases canCache with
  | false => simp [forwardResponse]
  | true => simp [forwardResponse, hmem, hrsp]

/-- Witness for C9 (amended) at status 500, both for a cacheable and an
uncacheable request. -/
theorem non200_never_cached_witness :
    ((forwardResponse true 500 [] true).storedMemory = false ∧
     (forwardResponse true 500 [] true).storedLocal = false ∧
     (forwardResponse true 500 [] true).storedS3 = false ∧
     (forwardResponse true 500 [] true).xcache =
       (if true then some ("fetch, uncached".toList) else none)) ∧
    ((forwardResponse false 500 [] true).storedMemory = false ∧
     (forwardResponse false 500 [] true).storedLocal = false ∧
     (forwardResponse false 500 [] true).storedS3 = false ∧
     (forwardResponse false 500 [] true).xcache =
       (if false then some ("fetch, uncached".toList) else none)) :=
  ⟨non200_never_cached true 500 [] true (by decide),
   non200_never_cached false 500 [] true (by decide)⟩

/-! ## Build cache (`s3cache/s3cache.go`)

S3 and local-stage calls are embedded as oracle fields of environment
structures.  The remote bucket is restricted to this cache's two key
spaces: `action/<xx>/<id>` and `object/<xx>/<id>` are disjoint and the key
derivation is injective in the id, so the maps are keyed by the ids
themselves. -/

example : parseAction ("garbage".toList) = Except.error ("invalid action record".toList) := rfl

example : parseAction ("ab 99".toList) = Except.ok ("ab".toList, 99) := rfl

/-- C1: on a local-stage miss, a not-found action fetch is a miss (empty
ids, nil error); any other action-fetch failure is an error; and once the
action record is fetched and parsed, any failure fetching the named output
blob — not-found included — is an error, never a miss. -/
theorem get_error_handling (env : GetEnv) (hmiss : ¬ localHit env) :
    (env.actionResp = S3Resp.notFound → cacheGet env = ⟨[], [], none, false⟩) ∧
    (∀ e, env.actionResp = S3Resp.failure e → (cacheGet env).err ≠ none) ∧
    (∀ body oid n, env.actionResp = S3Resp.ok body →
      parseAction body = Except.ok (oid, n) →
      (env.objectResp oid = S3Resp.notFound ∨
        (∃ e, env.objectResp oid = S3Resp.failure e)) →
      (cacheGet env).err ≠ none) := by
  refine ⟨?_, ?_, ?_⟩
  · intro ha
    simp [cacheGet, hmiss, ha]
  · intro e ha
    simp [cacheGet, hmiss, ha]
  · intro body oid n ha hp hobj
    rcases hobj with h | ⟨e, h⟩
    · simp [cacheGet, hmiss, ha, hp, h]
    · simp [cacheGet, hmiss, ha, hp, h]

/-- Witness for C1: a miss on the not-found branch, and an error when the
object named by a parsed action record is itself not found. -/
theorem get_error_handling_witness :
    cacheGet ⟨[], [], some ('e' :: []), S3Resp.notFound,
        fun _ => S3Resp.notFound, [], none⟩ = ⟨[], [], none, false⟩ ∧
    (cacheGet ⟨[], [], some ('e' :: []), S3Resp.ok ("ab 99".toList),
        fun _ => S3Resp.notFound, [], none⟩).err ≠ none :=
  ⟨(get_error_handling _ (by decide)).1 rfl,
   (get_error_handling _ (by decide)).2.2 ("ab 99".toList) ("ab".toList) 99 rfl
     rfl (Or.inl rfl)⟩

/-- C3: a malformed remote action record makes Get fail with an error
(distinct from the errorless miss outcome) and nothing is written to the
local stage. -/
theorem get_malformed_action (env : GetEnv) (body e : Str)
    (hmiss : ¬ localHit env) (ha : env.actionResp = S3Resp.ok body)
    (hp : parseAction body = Except.error e) :
    (cacheGet env).err ≠ none ∧ (cacheGet env).wroteLocal = false := by
  simp [cacheGet, hmiss, ha, hp]

/-- Witness for C3: the literal record `"garbage"`. -/
theorem get_malformed_action_witness :
    (cacheGet ⟨[], [], some ('e' :: []), S3Resp.ok ("garbage".toList),
        fun _ => S3Resp.notFound, [], none⟩).err ≠ none ∧
    (cacheGet ⟨[], [], some ('e' :: []), S3Resp.ok ("garbage".toList),
        fun _ => S3Resp.notFound, [], none⟩).wroteLocal = false :=
  get_malformed_action _ ("garbage".toList) ("invalid action record".toList)
    (by decide) rfl rfl

/-- C10: a target beginning with `*` matches any host having the remainder of
the pattern as a literal suffix, even with no dot (so `*bar.com` matches
`foobar.com`), and the bare pattern `*` matches every host. -/
theorem star_pattern_suffix_match (host rest : Str) :
    (rest <:+ host → hostMatchesTarget host ['*' :: rest] = true) ∧
    hostMatchesTarget host [['*']] = true := by
  constructor
  · intro hsuf
    simp only [hostMatchesTarget, List.any_cons, List.any_nil, Bool.or_false]
    unfold matchesTarget
    rw [stripLit_star_cons]
    by_cases hst : ('*' :: rest) = host
    · simp [hst]
    · rw [if_neg hst]
      simp [List.isSuffixOf_iff_suffix, hsuf]
  · simp only [hostMatchesTarget, List.any_cons, List.any_nil, Bool.or_false]
    unfold matchesTarget
    rw [stripLit_star_cons]
    by_cases hst : (['*'] : Str) = host
    · simp [hst]
    · rw [if_neg hst]
      simp [List.isSuffixOf_iff_suffix, List.nil_suffix]

/-- Witness for C10: `*bar.com` matches `foobar.com` and `bar.com`. -/
theorem star_pattern_suffix_match_witness :
    hostMatchesTarget ("foobar.com".toList) ['*' :: "bar.com".toList] = true ∧
    hostMatchesTarget ("bar.com".toList) ['*' :: "bar.com".toList] = true :=
  ⟨(star_pattern_suffix_match ("foobar.com".toList) ("bar.com".toList)).1 (by decide),
   (star_pattern_suffix_match ("bar.com".toList) ("bar.com".toList)).1 (by decide)⟩

/-! ## Put and the background upload task (`s3cache/s3cache.go`)

`Cache.Put` writes to the local stage, skips small objects, and otherwise
enqueues a write-behind task.  The task runs `maybePutObject` (stage 1:
conditional object upload guarded by the digest etag) and then writes the
action record (stage 2).  The remote bucket is a pair of maps; each S3 call
the task attempts is also recorded in an operation trace. -/

theorem etagMatches_isSome {etagFn : Str → Str} {r : Remote} {oid etag : Str}
    (h : etagMatches etagFn r oid etag = true) : r.objects oid ≠ none := by
  unfold etagMatches at h
  cases ho : r.objects oid with
  | none => rw [ho] at h; exact absurd h (by simp)
  | some data => simp [ho]

/-- Stage-1 characterization: its trace holds no action write; on success
the object key is populated; the action map is untouched. -/
theorem maybePutObject_spec (etagFn : Str → Str) (env : TaskEnv) (r : Remote)
    (oid etag : Str) :
    (∀ op ∈ (maybePutObject etagFn env r oid etag).ops, op.isPutAction = false) ∧
    ((maybePutObject etagFn env r oid etag).err = none →
      (maybePutObject etagFn env r oid etag).remote.objects oid ≠ none) ∧
    (maybePutObject etagFn env r oid etag).remote.actions = r.actions := by
  cases hf : env.fileData with
  | none => simp [maybePutObject, hf]
  | some data =>
    by_cases hm : etagMatches etagFn r oid etag
    · simp only [maybePutObject, hf, if_pos hm]
      refine ⟨by simp [RemoteOp.isPutAction], fun _ => etagMatches_isSome hm, trivial⟩
    · cases hpo : env.putObjectErr with
      | some e =>
        simp only [maybePutObject, hf, if_neg hm, hpo]
        refine ⟨by simp [RemoteOp.isPutAction], by simp, trivial⟩
      | none =>
        simp only [maybePutObject, hf, if_neg hm, hpo]
        refine ⟨by simp [RemoteOp.isPutAction], fun _ => by simp [updMap], trivial⟩

theorem runTask_shape (etagFn : Str → Str) (env : TaskEnv) (r : Remote) (t : UploadTask) :
    (runTask etagFn env r t).ops = (maybePutObject etagFn env r t.objectID t.etag).ops ∨
    (runTask etagFn env r t).ops = (maybePutObject etagFn env r t.objectID t.etag).ops ++
      [RemoteOp.putAction t.actionID (actionRecord t.objectID env.mtimeNanos)] := by
  simp only [runTask]
  cases herr : (maybePutObject etagFn env r t.objectID t.etag).err with
  | some e => exact Or.inl rfl
  | none =>
    cases hpa : env.putActionErr with
    | some e => exact Or.inr rfl
    | none => exact Or.inr rfl

theorem runTask_objects_err (etagFn : Str → Str) (env : TaskEnv) (r : Remote) (t : UploadTask) :
    (runTask etagFn env r t).remote.objects =
      (maybePutObject etagFn env r t.objectID t.etag).remote.objects ∧
    ((runTask etagFn env r t).err = none →
      (maybePutObject etagFn env r t.objectID t.etag).err = none) := by
  simp only [runTask]
  cases herr : (maybePutObject etagFn env r t.objectID t.etag).err with
  | some e => exact ⟨rfl, fun h => Option.noConfusion h⟩
  | none =>
    cases hpa : env.putActionErr with
    | some e => exact ⟨rfl, fun _ => rfl⟩
    | none => exact ⟨rfl, fun _ => rfl⟩

/-- C2: the background task is strictly staged: its trace splits into a
stage-1 part free of action writes followed by a part free of object
writes; when the object stage fails, no action write happens and the remote
action map is untouched; and whenever an action write appears in the trace,
the output blob is durable under its object key in the resulting remote. -/
theorem upload_object_before_action (etagFn : Str → Str) (env : TaskEnv) (r : Remote)
    (t : UploadTask) :
    (∃ l1 l2, (runTask etagFn env r t).ops = l1 ++ l2 ∧
      (∀ op ∈ l1, op.isPutAction = false) ∧ (∀ op ∈ l2, op.isPutObject = false)) ∧
    ((maybePutObject etagFn env r t.objectID t.etag).err ≠ none →
      (∀ op ∈ (runTask etagFn env r t).ops, op.isPutAction = false) ∧
      (runTask etagFn env r t).remote.actions = r.actions) ∧
    ((∃ op ∈ (runTask etagFn env r t).ops, op.isPutAction = true) →
      (runTask etagFn env r t).remote.objects t.objectID ≠ none) := by
  obtain ⟨hno, hdur, hact⟩ := maybePutObject_spec etagFn env r t.objectID t.etag
  simp only [runTask]
  cases herr : (maybePutObject etagFn env r t.objectID t.etag).err with
  | some e =>
    refine ⟨⟨(maybePutObject etagFn env r t.objectID t.etag).ops, [],
        (List.append_nil _).symm, hno, by simp⟩, ?_, ?_⟩
    · intro _
      exact ⟨hno, hact⟩
    · rintro ⟨op, hop, hpa⟩
      exact absurd hpa (by simp [hno op hop])
  | none =>
    have hobj := hdur herr
    cases hpa : env.putActionErr with
    | some e =>
      refine ⟨⟨(maybePutObject etagFn env r t.objectID t.etag).ops,
          [RemoteOp.putAction t.actionID (actionRecord t.objectID env.mtimeNanos)],
          rfl, hno, by simp [RemoteOp.isPutObject]⟩, ?_, ?_⟩
      · intro hcontra
        exact absurd rfl hcontra
      · intro _
        exact hobj
    | none =>
      refine ⟨⟨(maybePutObject etagFn env r t.objectID t.etag).ops,
          [RemoteOp.putAction t.actionID (actionRecord t.objectID env.mtimeNanos)],
          rfl, hno, by simp [RemoteOp.isPutObject]⟩, ?_, ?_⟩
      · intro hcontra
        exact absurd rfl hcontra
      · intro _
        exact hobj

/-- Witness for C2: a fresh remote, a successful run; the action write
happened and the object key is populated afterwards. -/
theorem upload_object_before_action_witness :
    (runTask (fun s => s) ⟨some ("b".toList), 5, none, none⟩
        ⟨fun _ => none, fun _ => none⟩
        ⟨"a".toList, "o".toList, "b".toList⟩).remote.objects ("o".toList) ≠ none :=
  (upload_object_before_action (fun s => s) ⟨some ("b".toList), 5, none, none⟩
      ⟨fun _ => none, fun _ => none⟩ ⟨"a".toList, "o".toList, "b".toList⟩).2.2
    ⟨RemoteOp.putAction ("a".toList) (actionRecord ("o".toList) 5), by decide, by decide⟩

/-- C4: a failed local-stage write makes Put return that error with nothing
enqueued; an object below the upload threshold returns the local path with
nothing enqueued; in both cases running the enqueued work (there is none)
leaves any remote store unchanged. -/
theorem put_local_stage_frame (etagFn : Str → Str) (mu : Int) (env : PutEnv)
    (a oid : Str) (size : Int) (body : Str) :
    (∀ e, env.localPutErr = some e →
      cachePut etagFn mu env a oid size body = ⟨[], some e, none⟩) ∧
    (env.localPutErr = none → size < mu →
      cachePut etagFn mu env a oid size body = ⟨env.localPutPath, none, none⟩) ∧
    ((env.localPutErr ≠ none ∨ size < mu) → ∀ tenv r,
      runEnqueued etagFn tenv r (cachePut etagFn mu env a oid size body).task = r) := by
  refine ⟨?_, ?_, ?_⟩
  · intro e he
    simp [cachePut, he]
  · intro he hs
    simp [cachePut, he, hs]
  · intro hcase tenv r
    cases he : env.localPutErr with
    | some e => simp [cachePut, he, runEnqueued]
    | none =>
      rcases hcase with h | h
      · exact absurd he h
      · simp [cachePut, he, h, runEnqueued]

/-- Witness for C4: the small-object branch with a 10-byte threshold. -/
theorem put_local_stage_frame_witness :
    cachePut (fun s => s) 10 ⟨"p".toList, none⟩ ("a".toList) ("o".toList) 3 ("b".toList) =
      ⟨"p".toList, none, none⟩ ∧
    runEnqueued (fun s => s) ⟨none, 0, none, none⟩ ⟨fun _ => none, fun _ => none⟩
      ((cachePut (fun s => s) 10 ⟨"p".toList, none⟩
        ("a".toList) ("o".toList) 3 ("b".toList)).task) = ⟨fun _ => none, fun _ => none⟩ :=
  ⟨(put_local_stage_frame (fun s => s) 10 ⟨"p".toList, none⟩
      ("a".toList) ("o".toList) 3 ("b".toList)).2.1 rfl (by decide),
   (put_local_stage_frame (fun s => s) 10 ⟨"p".toList, none⟩
      ("a".toList) ("o".toList) 3 ("b".toList)).2.2 (Or.inr (by decide))
     ⟨none, 0, none, none⟩ ⟨fun _ => none, fun _ => none⟩⟩

theorem etagMatches_congr (etagFn : Str → Str) {r r' : Remote}
    (h : r.objects = r'.objects) (oid etag : Str) :
    etagMatches etagFn r oid etag = etagMatches etagFn r' oid etag := by
  unfold etagMatches
  rw [h]

theorem maybePutObject_success_match (etagFn : Str → Str) (env : TaskEnv) (r : Remote)
    (oid : Str) (body : Str) (hf : env.fileData = some body)
    (hok : (maybePutObject etagFn env r oid (etagFn body)).err = none) :
    etagMatches etagFn (maybePutObject etagFn env r oid (etagFn body)).remote oid
      (etagFn body) = true := by
  simp only [maybePutObject, hf] at hok ⊢
  by_cases hm : etagMatches etagFn r oid (etagFn body) = true
  · rw [if_pos hm] at hok ⊢
    exact hm
  · rw [if_neg hm] at hok ⊢
    cases hpo : env.putObjectErr with
    | some e =>
      simp only [hpo] at hok
      exact absurd hok (by simp)
    | none =>
      simp only [hpo]
      show etagMatches etagFn { r with objects := updMap r.objects oid body } oid
        (etagFn body) = true
      unfold etagMatches
      simp [updMap]

/-- C5: running the task of a second identical Put (same ids and body)
against the remote produced by the first successful run is a no-op for the
object blob: the `HeadObject` guard with the body digest as `If-Match`
matches, the object is reported already present, no object upload occurs,
and the remote object map is unchanged. -/
theorem put_put_remote_noop (etagFn : Str → Str) (env1 env2 : TaskEnv) (r : Remote)
    (t : UploadTask) (body : Str)
    (hf1 : env1.fileData = some body) (hf2 : env2.fileData = some body)
    (hetag : t.etag = etagFn body)
    (hok : (runTask etagFn env1 r t).err = none) :
    ((runTask etagFn env2 (runTask etagFn env1 r t).remote t).remote.objects =
      (runTask etagFn env1 r t).remote.objects) ∧
    (∀ op ∈ (runTask etagFn env2 (runTask etagFn env1 r t).remote t).ops,
      op.isPutObject = false) ∧
    RemoteOp.headObject t.objectID t.etag true ∈
      (runTask etagFn env2 (runTask etagFn env1 r t).remote t).ops := by
  have h1 := runTask_objects_err etagFn env1 r t
  have hok1 : (maybePutObject etagFn env1 r t.objectID t.etag).err = none := h1.2 hok
  have hok1E : (maybePutObject etagFn env1 r t.objectID (etagFn body)).err = none := by
    rw [← hetag]; exact hok1
  have hmatch1 : etagMatches etagFn
      (maybePutObject etagFn env1 r t.objectID (etagFn body)).remote t.objectID
      (etagFn body) = true :=
    maybePutObject_success_match etagFn env1 r t.objectID body hf1 hok1E
  have hmatchR1 : etagMatches etagFn (runTask etagFn env1 r t).remote t.objectID
      t.etag = true := by
    rw [etagMatches_congr etagFn h1.1 t.objectID t.etag, hetag]
    rw [← hetag]
    rw [hetag]
    exact hmatch1
  generalize hg : (runTask etagFn env1 r t).remote = R1 at hmatchR1 ⊢
  have hst2 : maybePutObject etagFn env2 R1 t.objectID t.etag =
      ⟨R1, [RemoteOp.headObject t.objectID t.etag true], none⟩ := by
    simp only [maybePutObject, hf2]
    rw [if_pos hmatchR1]
  refine ⟨?_, ?_, ?_⟩
  · simp only [runTask, hst2]
    cases hpa : env2.putActionErr with
    | some e => rfl
    | none => rfl
  · simp only [runTask, hst2]
    cases hpa : env2.putActionErr with
    | some e => simp [RemoteOp.isPutObject]
    | none => simp [RemoteOp.isPutObject]
  · simp only [runTask, hst2]
    cases hpa : env2.putActionErr with
    | some e => simp
    | none => simp

/-- Witness for C5: identity digest, empty initial remote, body `"b"`; the
second run's trace reports the object already present. -/
theorem put_put_remote_noop_witness :
    ((runTask (fun s => s) ⟨some ("b".toList), 7, none, none⟩
        (runTask (fun s => s) ⟨some ("b".toList), 5, none, none⟩
          ⟨fun _ => none, fun _ => none⟩
          ⟨"a".toList, "o".toList, "b".toList⟩).remote
        ⟨"a".toList, "o".toList, "b".toList⟩).remote.objects =
      (runTask (fun s => s) ⟨some ("b".toList), 5, none, none⟩
        ⟨fun _ => none, fun _ => none⟩
        ⟨"a".toList, "o".toList, "b".toList⟩).remote.objects) ∧
    RemoteOp.headObject ("o".toList) ("b".toList) true ∈
      (runTask (fun s => s) ⟨some ("b".toList), 7, none, none⟩
        (runTask (fun s => s) ⟨some ("b".toList), 5, none, none⟩
          ⟨fun _ => none, fun _ => none⟩
          ⟨"a".toList, "o".toList, "b".toList⟩).remote
        ⟨"a".toList, "o".toList, "b".toList⟩).ops :=
  ⟨(put_put_remote_noop (fun s => s) ⟨some ("b".toList), 5, none, none⟩
      ⟨some ("b".toList), 7, none, none⟩ ⟨fun _ => none, fun _ => none⟩
      ⟨"a".toList, "o".toList, "b".toList⟩ ("b".toList) rfl rfl rfl (by decide)).1,
   (put_put_remote_noop (fun s => s) ⟨some ("b".toList), 5, none, none⟩
      ⟨some ("b".toList), 7, none, none⟩ ⟨fun _ => none, fun _ => none⟩
      ⟨"a".toList, "o".toList, "b".toList⟩ ("b".toList) rfl rfl rfl (by decide)).2.2⟩

/-! ## Proxy cache object format (`revproxy/cache.go`)

`writeCacheObject` emits `Name: value` lines for Content-Type (defaulted to
`application/octet-stream`), Date and Etag, then a blank line, then the
body.  `parseCacheObject` cuts at the first `"\n\n"`, splits the head into
lines and `Add`s every line that cuts at `": "`. -/

example : parseCacheObject (writeCacheObject [] ("x".toList)) =
    some ("x".toList, [(ctName, defaultCT)]) := by decide

example : parseCacheObject (writeCacheObject
    [(etagName, "abc".toList)] ("x".toList)) =
    some ("x".toList, [(ctName, defaultCT), (etagName, "abc".toList)]) := by decide

theorem cutSep2_append (c1 c2 : Char) (a t : Str) (ha : c1 ∉ a) :
    cutSep2 c1 c2 (a ++ c1 :: c2 :: t) = some (a, t) := by
  induction a with
  | nil => simp [cutSep2]
  | cons x a' ih =>
    have hx : x ≠ c1 := fun he => ha (he ▸ List.mem_cons_self x a')
    have ha' : c1 ∉ a' := fun hm => ha (List.mem_cons_of_mem x hm)
    rcases hcons : a' ++ c1 :: c2 :: t with _ | ⟨y, rest⟩
    · exact absurd hcons (by simp)
    · rw [List.cons_append, hcons]
      simp only [cutSep2]
      rw [if_neg (fun hcond => hx hcond.1)]
      rw [← hcons, ih ha']
      rfl

theorem cutSep2_append_left (c1 c2 : Char) (a t : Str) (ha : c1 ∉ a)
    (ht : t.head? ≠ some c2) :
    cutSep2 c1 c2 (a ++ c1 :: t) =
      (cutSep2 c1 c2 t).map fun p => (a ++ c1 :: p.1, p.2) := by
  induction a with
  | nil =>
    cases t with
    | nil => simp [cutSep2]
    | cons y t' =>
      have hy : y ≠ c2 := fun he => ht (by simp [he])
      simp only [List.nil_append, cutSep2]
      rw [if_neg (fun hcond => hy hcond.2)]
  | cons x a' ih =>
    have hx : x ≠ c1 := fun he => ha (he ▸ List.mem_cons_self x a')
    have ha' : c1 ∉ a' := fun hm => ha (List.mem_cons_of_mem x hm)
    rcases hcons : a' ++ c1 :: t with _ | ⟨y, rest⟩
    · exact absurd hcons (by simp)
    · rw [List.cons_append, hcons]
      simp only [cutSep2]
      rw [if_neg (fun hcond => hx hcond.1)]
      rw [← hcons, ih ha']
      cases cutSep2 c1 c2 t with
      | none => rfl
      | some p => rfl

theorem intercalate_nl_cons (a b : Str) (L : List Str) :
    List.intercalate ['\n'] (a :: b :: L) =
      a ++ '\n' :: List.intercalate ['\n'] (b :: L) := by
  simp [List.intercalate, List.intersperse]

theorem cutSep2_join (L : List Str) (body : Str) (hne : L ≠ [])
    (hl : ∀ l ∈ L, l ≠ [] ∧ '\n' ∉ l) :
    cutSep2 '\n' '\n' (joinNL L ++ '\n' :: body) =
      some (List.intercalate ['\n'] L, body) := by
  induction L with
  | nil => exact absurd rfl hne
  | cons a L' ih =>
    obtain ⟨hane, hanl⟩ := hl a (List.mem_cons_self a L')
    cases L' with
    | nil =>
      have heq : joinNL [a] ++ '\n' :: body = a ++ '\n' :: '\n' :: body := by
        simp [joinNL]
      rw [heq, cutSep2_append '\n' '\n' a body hanl]
      simp [List.intercalate]
    | cons b L'' =>
      obtain ⟨hbne, hbnl⟩ := hl b (by simp)
      have heq : joinNL (a :: b :: L'') ++ '\n' :: body =
          a ++ '\n' :: (joinNL (b :: L'') ++ '\n' :: body) := by
        simp [joinNL]
      rw [heq]
      have hhead : (joinNL (b :: L'') ++ '\n' :: body).head? ≠ some '\n' := by
        cases b with
        | nil => exact absurd rfl hbne
        | cons c b' =>
          have hc : c ≠ '\n' := fun he => hbnl (by simp [he])
          simp [joinNL, hc]
      rw [cutSep2_append_left '\n' '\n' a _ hanl hhead]
      rw [ih (by simp) (fun l hlmem => hl l (List.mem_cons_of_mem a hlmem))]
      rw [intercalate_nl_cons]
      rfl

theorem writeCacheObject_eq (h : Header) (body : Str) :
    writeCacheObject h body = joinNL (linesOf h) ++ '\n' :: body := by
  have hdct : ¬ defaultCT = [] := by decide
  by_cases hc : headerGet h ctName = [] <;>
    by_cases hd : headerGet h dateName = [] <;>
      by_cases he : headerGet h etagName = [] <;>
        simp [writeCacheObject, hprintf, linesOf, writtenHeaders, headerLine, joinNL,
          hc, hd, he, hdct]

theorem headerLine_ok {name v : Str} (hn : name ≠ []) (hnl : '\n' ∉ name)
    (hvl : '\n' ∉ v) :
    headerLine name v ≠ [] ∧ '\n' ∉ headerLine name v := by
  constructor
  · cases name with
    | nil => exact absurd rfl hn
    | cons c cs => simp [headerLine]
  · unfold headerLine
    intro hmem
    rcases List.mem_append.mp hmem with hm | hm
    · exact hnl hm
    · simp only [List.mem_cons] at hm
      rcases hm with h1 | h1 | h1
      · exact absurd h1 (by decide)
      · exact absurd h1 (by decide)
      · exact hvl h1

theorem linesOf_ok (h : Header)
    (hct : '\n' ∉ headerGet h ctName) (hd : '\n' ∉ headerGet h dateName)
    (he : '\n' ∉ headerGet h etagName) :
    ∀ l ∈ linesOf h, l ≠ [] ∧ '\n' ∉ l := by
  intro l hlmem
  rw [linesOf, List.mem_map] at hlmem
  obtain ⟨p, hp, rfl⟩ := hlmem
  simp only [writtenHeaders, List.mem_cons, List.mem_append] at hp
  rcases hp with rfl | hp | hp
  · refine @headerLine_ok ctName _ (by decide) (by decide) ?_
    show '\n' ∉ (if headerGet h ctName = [] then defaultCT else headerGet h ctName)
    by_cases hc : headerGet h ctName = []
    · rw [if_pos hc]
      decide
    · rw [if_neg hc]
      exact hct
  · by_cases hdd : headerGet h dateName = []
    · rw [if_pos hdd] at hp
      simp at hp
    · rw [if_neg hdd] at hp
      simp only [List.mem_singleton] at hp
      subst hp
      exact @headerLine_ok dateName (headerGet h dateName) (by decide) (by decide) hd
  · by_cases hee : headerGet h etagName = []
    · rw [if_pos hee] at hp
      simp at hp
    · rw [if_neg hee] at hp
      simp only [List.mem_singleton] at hp
      subst hp
      exact @headerLine_ok etagName (headerGet h etagName) (by decide) (by decide) he

theorem writtenHeaders_names (h : Header) : ∀ p ∈ writtenHeaders h, ':' ∉ p.1 := by
  intro p hp
  simp only [writtenHeaders, List.mem_cons, List.mem_append] at hp
  rcases hp with rfl | hp | hp
  · show ':' ∉ ctName
    decide
  · by_cases hdd : headerGet h dateName = []
    · rw [if_pos hdd] at hp
      simp at hp
    · rw [if_neg hdd] at hp
      simp only [List.mem_singleton] at hp
      subst hp
      show ':' ∉ dateName
      decide
  · by_cases hee : headerGet h etagName = []
    · rw [if_pos hee] at hp
      simp at hp
    · rw [if_neg hee] at hp
      simp only [List.mem_singleton] at hp
      subst hp
      show ':' ∉ etagName
      decide

theorem foldl_parse_lines (pairs : List (Str × Str)) (h0 : Header)
    (hp : ∀ p ∈ pairs, ':' ∉ p.1) :
    (pairs.map fun p => headerLine p.1 p.2).foldl addLine h0 = h0 ++ pairs := by
  induction pairs generalizing h0 with
  | nil => simp
  | cons p rest ih =>
    simp only [List.map_cons, List.foldl_cons]
    have hline : addLine h0 (headerLine p.1 p.2) = h0 ++ [p] := by
      unfold addLine headerLine
      rw [cutSep2_append ':' ' ' p.1 p.2 (hp p (List.mem_cons_self p rest))]
      rfl
    rw [hline]
    rw [ih (h0 ++ [p]) (fun q hq => hp q (List.mem_cons_of_mem p hq))]
    simp

/-- Counterexample for C6 as stated: `Cache-Control` is on the spec's
keep-list, but `writeCacheObject` never writes it, so a stored object whose
response carried `Cache-Control: immutable` parses back without it. -/
theorem cache_control_not_persisted :
    headerGet [("Cache-Control".toList, "immutable".toList)] ("Cache-Control".toList) ≠ [] ∧
    parseCacheObject (writeCacheObject
        [("Cache-Control".toList, "immutable".toList)] ("x".toList)) =
      some ("x".toList, [(ctName, defaultCT)]) := by
  constructor
  · decide
  · decide

/-- C6 (amended): writing a cache object and parsing it back returns the
body bytes exactly and exactly the bindings `writeCacheObject` persists —
`Content-Type` (defaulting to `application/octet-stream`), plus `Date` and
`Etag` when present; `Cache-Control` is not persisted.  Header values are
newline-free (HTTP forbids raw newlines in header values). -/
theorem cache_object_roundtrip (h : Header) (body : Str)
    (hct : '\n' ∉ headerGet h ctName) (hd : '\n' ∉ headerGet h dateName)
    (he : '\n' ∉ headerGet h etagName) :
    parseCacheObject (writeCacheObject h body) = some (body, writtenHeaders h) := by
  have hok := linesOf_ok h hct hd he
  have hne : linesOf h ≠ [] := by simp [linesOf, writtenHeaders]
  have hcut := cutSep2_join (linesOf h) body hne hok
  rw [writeCacheObject_eq]
  simp only [parseCacheObject, hcut]
  rw [List.splitOn_intercalate (linesOf h) '\n' (fun l hl => (hok l hl).2) hne]
  rw [linesOf, foldl_parse_lines (writtenHeaders h) [] (writtenHeaders_names h)]
  simp

/-- Witness for C6 (amended): a response with Content-Type, Date and a
Cache-Control header round-trips to Content-Type and Date only. -/
theorem cache_object_roundtrip_witness :
    parseCacheObject (writeCacheObject
        [(ctName, "text/plain".toList), (dateName, "today".toList),
         ("Cache-Control".toList, "immutable".toList)] ("hello".toList)) =
      some ("hello".toList, writtenHeaders
        [(ctName, "text/plain".toList), (dateName, "today".toList),
         ("Cache-Control".toList, "immutable".toList)]) :=
  cache_object_roundtrip
    [(ctName, "text/plain".toList), (dateName, "today".toList),
     ("Cache-Control".toList, "immutable".toList)] ("hello".toList)
    (by decide) (by decide) (by decide)
